import Mathlib

/-!
# Verification of the course-store service

Shallow embedding of the course management service of this repository:

* `src/src/app/services/course/course.service.ts` — the BehaviorSubject-based
  `CourseService` (the authoritative implementation): `getCourses`, `addCourse`,
  `deleteCourse`, `updateCourses`, `setData`;
* `src/unnamed/part_003` — the signal-based `CourseService` variant:
  `loadCourses`, `addCourse`, `deleteCourse`, `setData`;
* `src/src/app/pages/admin/admin.component.ts` — `onSubmit` / `saveCourse` /
  `clearForm` of the admin form controller.

Persistence goes through `localStorage` under one fixed key, storing
`JSON.stringify` of the course list; loading uses `JSON.parse`.  The JSON
serializer and parser are modelled below on an explicit JSON syntax tree.
Numbers are restricted to unsigned integers, which is all this application
ever stores (course ids); the renderer emits no whitespace and the parser
accepts none, matching `JSON.stringify` output exactly.
-/

/-- Modelled from the spec: the `Course` interface file
(`src/app/interfaces/course.interface.ts`) is not among the provided sources.
Spec §6 describes each persisted object as minimally
`{ id: number, image: string, ...other string fields }`; we model one further
string field, `title`. -/
structure Course where
  id : Nat
  title : String
  image : String
deriving DecidableEq

/-- JSON syntax tree: the values `JSON.parse` can produce, with numbers
restricted to the unsigned integers this application stores. -/
inductive Json where
  | null : Json
  | bool (b : Bool) : Json
  | num (n : Nat) : Json
  | str (s : String) : Json
  | arr (elems : List Json) : Json
  | obj (members : List (String × Json)) : Json

/-! ## Rendering (models `JSON.stringify`) -/

/-- One character of a JSON string body, escaped as `JSON.stringify` escapes it
(quote, backslash, and the common control characters). -/
def escapeChar (c : Char) : List Char :=
  if c = '"' then ['\\', '"']
  else if c = '\\' then ['\\', '\\']
  else if c = '\n' then ['\\', 'n']
  else if c = '\t' then ['\\', 't']
  else if c = '\r' then ['\\', 'r']
  else [c]

/-- Escape every character of a JSON string body. -/
def escapeList : List Char → List Char
  | [] => []
  | c :: cs => escapeChar c ++ escapeList cs

/-- Decimal rendering of a natural number, most significant digit first. -/
def renderNat (n : Nat) : List Char :=
  if _h : n < 10 then [Nat.digitChar n]
  else renderNat (n / 10) ++ [Nat.digitChar (n % 10)]
decreasing_by exact Nat.div_lt_self (by omega) (by omega)


/-- Characters of the literal `null` after its first one. -/
def nullTail : List Char := ['u', 'l', 'l']

/-- Characters of the literal `true` after its first one. -/
def trueTail : List Char := ['r', 'u', 'e']

/-- Characters of the literal `false` after its first one. -/
def falseTail : List Char := ['a', 'l', 's', 'e']

mutual

/-- Characters of the JSON rendering of a value (no whitespace, like
`JSON.stringify`). -/
def renderJ : Json → List Char
  | .null => 'n' :: nullTail
  | .bool true => 't' :: trueTail
  | .bool false => 'f' :: falseTail
  | .num n => renderNat n
  | .str s => '"' :: (escapeList s.data ++ ['"'])
  | .arr xs => '[' :: (renderElems xs ++ [']'])
  | .obj ms => '{' :: (renderMems ms ++ ['}'])
termination_by j => sizeOf j

/-- Rendering of an array body (comma-separated, empty for `[]`). -/
def renderElems : List Json → List Char
  | [] => []
  | x :: xs => renderJ x ++ renderTail xs
termination_by xs => sizeOf xs

/-- Rendering of the continuation of an array body: `,elem` repeated. -/
def renderTail : List Json → List Char
  | [] => []
  | y :: ys => ',' :: (renderJ y ++ renderTail ys)
termination_by ys => sizeOf ys

/-- Rendering of an object body (comma-separated, empty for `{}`). -/
def renderMems : List (String × Json) → List Char
  | [] => []
  | m :: ms => renderMem m ++ renderMemsTail ms
termination_by ms => sizeOf ms

/-- Rendering of the continuation of an object body: `,member` repeated. -/
def renderMemsTail : List (String × Json) → List Char
  | [] => []
  | m :: ms => ',' :: (renderMem m ++ renderMemsTail ms)
termination_by ms => sizeOf ms

/-- Rendering of one `"key":value` member. -/
def renderMem : String × Json → List Char
  | (k, v) => '"' :: (escapeList k.data ++ '"' :: ':' :: renderJ v)
termination_by m => sizeOf m

end

/-! ## Parsing (models `JSON.parse`) -/

/-- Whether `c` is a decimal digit. -/
def isDigitChar (c : Char) : Bool :=
  48 ≤ c.toNat && c.toNat ≤ 57

/-- Numeric value of a digit character. -/
def digitVal (c : Char) : Nat :=
  c.toNat - 48

/-- Greedily consume decimal digits, accumulating their value. -/
def parseDigitsAux : List Char → Nat → Nat × List Char
  | [], acc => (acc, [])
  | c :: rest, acc =>
    if isDigitChar c then parseDigitsAux rest (acc * 10 + digitVal c)
    else (acc, c :: rest)

/-- Consume an expected literal run of characters, returning the remainder. -/
def dropLit : List Char → List Char → Option (List Char)
  | [], cs => some cs
  | _ :: _, [] => none
  | l :: lt, c :: ct => if c = l then dropLit lt ct else none

/-- Unescape one character following a backslash in a JSON string. -/
def unescapeChar (c : Char) : Option Char :=
  if c = '"' then some '"'
  else if c = '\\' then some '\\'
  else if c = '/' then some '/'
  else if c = 'n' then some '\n'
  else if c = 't' then some '\t'
  else if c = 'r' then some '\r'
  else if c = 'b' then some (Char.ofNat 8)
  else if c = 'f' then some (Char.ofNat 12)
  else none

mutual

/-- Parse a JSON string body up to and including the closing quote, returning
the unescaped characters and the remaining input. -/
def parseStringAux : List Char → Option (List Char × List Char)
  | [] => none
  | c :: rest =>
    if c = '"' then some ([], rest)
    else if c = '\\' then parseEscape rest
    else
      match parseStringAux rest with
      | none => none
      | some (s, r) => some (c :: s, r)
termination_by cs => cs.length

/-- Parse the remainder of a JSON string after a backslash. -/
def parseEscape : List Char → Option (List Char × List Char)
  | [] => none
  | e :: rest =>
    match unescapeChar e with
    | none => none
    | some u =>
      match parseStringAux rest with
      | none => none
      | some (s, r) => some (u :: s, r)
termination_by cs => cs.length

end

mutual

/-- Parse one JSON value.  The fuel bounds the recursion; any fuel at least
the size of the value suffices. -/
def parseValue : Nat → List Char → Option (Json × List Char)
  | 0, _ => none
  | _ + 1, [] => none
  | fuel + 1, c :: rest =>
    if c = 'n' then
      match dropLit nullTail rest with
      | none => none
      | some r => some (.null, r)
    else if c = 't' then
      match dropLit trueTail rest with
      | none => none
      | some r => some (.bool true, r)
    else if c = 'f' then
      match dropLit falseTail rest with
      | none => none
      | some r => some (.bool false, r)
    else if c = '"' then
      match parseStringAux rest with
      | none => none
      | some (s, r) => some (.str (String.mk s), r)
    else if c = '[' then
      match parseElems fuel rest with
      | none => none
      | some (js, r) => some (.arr js, r)
    else if c = '{' then
      match parseMems fuel rest with
      | none => none
      | some (ms, r) => some (.obj ms, r)
    else if isDigitChar c then
      match parseDigitsAux (c :: rest) 0 with
      | (n, r) => some (.num n, r)
    else none

/-- Parse an array body after `[`, consuming the closing `]`. -/
def parseElems : Nat → List Char → Option (List Json × List Char)
  | 0, _ => none
  | _ + 1, [] => none
  | fuel + 1, d :: rest =>
    if d = ']' then some ([], rest)
    else
      match parseValue fuel (d :: rest) with
      | none => none
      | some (j, r1) =>
        match parseElemsTail fuel r1 with
        | none => none
        | some (js, r) => some (j :: js, r)

/-- Parse the continuation of an array body: `,elem` repeated, then `]`. -/
def parseElemsTail : Nat → List Char → Option (List Json × List Char)
  | 0, _ => none
  | _ + 1, [] => none
  | fuel + 1, d :: rest =>
    if d = ']' then some ([], rest)
    else if d = ',' then
      match parseValue fuel rest with
      | none => none
      | some (j, r1) =>
        match parseElemsTail fuel r1 with
        | none => none
        | some (js, r) => some (j :: js, r)
    else none

/-- Parse an object body after `{`, consuming the closing `}`. -/
def parseMems : Nat → List Char → Option (List (String × Json) × List Char)
  | 0, _ => none
  | _ + 1, [] => none
  | fuel + 1, d :: rest =>
    if d = '}' then some ([], rest)
    else
      match parseMember fuel (d :: rest) with
      | none => none
      | some (m, r1) =>
        match parseMemsTail fuel r1 with
        | none => none
        | some (ms, r) => some (m :: ms, r)

/-- Parse the continuation of an object body: `,member` repeated, then `}`. -/
def parseMemsTail : Nat → List Char → Option (List (String × Json) × List Char)
  | 0, _ => none
  | _ + 1, [] => none
  | fuel + 1, d :: rest =>
    if d = '}' then some ([], rest)
    else if d = ',' then
      match parseMember fuel rest with
      | none => none
      | some (m, r1) =>
        match parseMemsTail fuel r1 with
        | none => none
        | some (ms, r) => some (m :: ms, r)
    else none

/-- Parse one `"key":value` member. -/
def parseMember : Nat → List Char → Option ((String × Json) × List Char)
  | 0, _ => none
  | _ + 1, [] => none
  | fuel + 1, c :: rest =>
    if c = '"' then
      match parseStringAux rest with
      | none => none
      | some (k, r1) =>
        match dropLit [':'] r1 with
        | none => none
        | some r2 =>
          match parseValue fuel r2 with
          | none => none
          | some (v, r) => some ((String.mk k, v), r)
    else none

end

/-- Model of `JSON.parse`: parse a complete JSON document (the whole string must be
consumed).  The fuel is an upper bound artifact of the embedding; it is large
enough for every document this application writes. -/
def Json.parse (s : String) : Option Json :=
  match parseValue (s.data.length + 1) s.data with
  | some (j, []) => some j
  | _ => none

/-! ## Sizes (fuel bounds for the parser) -/

mutual

/-- Structural size of a JSON value, a sufficient parsing fuel bound. -/
def sizeJ : Json → Nat
  | .null => 1
  | .bool _ => 1
  | .num _ => 1
  | .str _ => 1
  | .arr xs => 1 + sizeElems xs
  | .obj ms => 1 + sizeMems ms
termination_by j => sizeOf j

/-- Fuel bound for an array body. -/
def sizeElems : List Json → Nat
  | [] => 1
  | x :: xs => 1 + sizeJ x + sizeTail xs
termination_by xs => sizeOf xs

/-- Fuel bound for an array body continuation. -/
def sizeTail : List Json → Nat
  | [] => 1
  | y :: ys => 1 + sizeJ y + sizeTail ys
termination_by ys => sizeOf ys

/-- Fuel bound for an object body. -/
def sizeMems : List (String × Json) → Nat
  | [] => 1
  | (_, v) :: ms => 2 + sizeJ v + sizeMemsTail ms
termination_by ms => sizeOf ms

/-- Fuel bound for an object body continuation. -/
def sizeMemsTail : List (String × Json) → Nat
  | [] => 1
  | (_, v) :: ms => 2 + sizeJ v + sizeMemsTail ms
termination_by ms => sizeOf ms

end

/-- Consuming a literal that is present succeeds and leaves the suffix. -/
theorem dropLit_append (lit rest : List Char) :
    dropLit lit (lit ++ rest) = some rest := by
  induction lit with
  | nil => rfl
  | cons c ct ih => simp [dropLit, ih]

/-! ## Digit lemmas -/

theorem digitChar_isDigit {d : Nat} (h : d < 10) :
    isDigitChar (Nat.digitChar d) = true := by
  interval_cases d <;> decide

theorem digitVal_digitChar {d : Nat} (h : d < 10) :
    digitVal (Nat.digitChar d) = d := by
  interval_cases d <;> decide

/-- A digit character is none of the characters that start another kind of
JSON token or close a composite. -/
theorem digit_ne {c : Char} (h : isDigitChar c = true) :
    c ≠ 'n' ∧ c ≠ 't' ∧ c ≠ 'f' ∧ c ≠ '"' ∧ c ≠ '[' ∧ c ≠ '{' ∧
      c ≠ ']' ∧ c ≠ '}' ∧ c ≠ ',' ∧ c ≠ ':' := by
  refine ⟨?_, ?_, ?_, ?_, ?_, ?_, ?_, ?_, ?_, ?_⟩ <;>
    (rintro rfl; exact absurd h (by decide))

theorem renderNat_head (n : Nat) :
    ∃ c t, renderNat n = c :: t ∧ isDigitChar c = true := by
  induction n using Nat.strong_induction_on with
  | _ n ih =>
    by_cases h : n < 10
    · refine ⟨Nat.digitChar n, [], ?_, digitChar_isDigit h⟩
      rw [renderNat]
      simp [h]
    · obtain ⟨c, t, hct, hc⟩ := ih (n / 10) (Nat.div_lt_self (by omega) (by omega))
      refine ⟨c, t ++ [Nat.digitChar (n % 10)], ?_, hc⟩
      rw [renderNat]
      simp [h, hct]

/-- Greedy digit parsing consumes exactly the rendering of `n`, shifting the
accumulator. -/
theorem parseDigitsAux_renderNat (n : Nat) :
    ∀ a rest, parseDigitsAux (renderNat n ++ rest) a =
      parseDigitsAux rest (a * 10 ^ (renderNat n).length + n) := by
  induction n using Nat.strong_induction_on with
  | _ n ih =>
    intro a rest
    by_cases h : n < 10
    · have hr : renderNat n = [Nat.digitChar n] := by rw [renderNat]; simp [h]
      rw [hr]
      simp [parseDigitsAux, digitChar_isDigit h, digitVal_digitChar h]
    · have hr : renderNat n = renderNat (n / 10) ++ [Nat.digitChar (n % 10)] := by
        rw [renderNat]; simp [h]
      rw [hr, List.append_assoc,
        ih (n / 10) (Nat.div_lt_self (by omega) (by omega))]
      have h10 : n % 10 < 10 := Nat.mod_lt _ (by omega)
      simp only [List.cons_append, List.nil_append, parseDigitsAux,
        digitChar_isDigit h10, if_true, digitVal_digitChar h10]
      congr 1
      simp only [List.length_append, List.length_cons, List.length_nil]
      have key : n / 10 * 10 + n % 10 = n := by omega
      calc (a * 10 ^ (renderNat (n / 10)).length + n / 10) * 10 + n % 10
          = a * ((10 : Nat) ^ (renderNat (n / 10)).length * 10) +
              (n / 10 * 10 + n % 10) := by ring
        _ = a * 10 ^ ((renderNat (n / 10)).length + (0 + 1)) + n := by
            rw [key, pow_add, pow_one]

/-- Digit parsing stops at once on input that does not start with a digit. -/
theorem parseDigitsAux_stop (rest : List Char) (a : Nat)
    (h : ∀ c t, rest = c :: t → isDigitChar c = false) :
    parseDigitsAux rest a = (a, rest) := by
  rcases rest with _ | ⟨c, t⟩
  · rfl
  · simp [parseDigitsAux, h c t rfl]

/-- The rendering of any JSON value starts with a character that is not a
closing delimiter, a comma, or a colon. -/
theorem renderJ_head (j : Json) :
    ∃ c t, renderJ j = c :: t ∧ c ≠ ']' ∧ c ≠ '}' ∧ c ≠ ',' ∧ c ≠ ':' := by
  rcases j with _ | b | n | s | xs | ms
  · exact ⟨'n', _, by rw [renderJ], by decide, by decide, by decide, by decide⟩
  · rcases b with _ | _
    · exact ⟨'f', _, by rw [renderJ], by decide, by decide, by decide, by decide⟩
    · exact ⟨'t', _, by rw [renderJ], by decide, by decide, by decide, by decide⟩
  · obtain ⟨c, t, hct, hc⟩ := renderNat_head n
    obtain ⟨_, _, _, _, _, _, h1, h2, h3, h4⟩ := digit_ne hc
    exact ⟨c, t, by rw [renderJ]; exact hct, h1, h2, h3, h4⟩
  · exact ⟨'"', _, by rw [renderJ], by decide, by decide, by decide, by decide⟩
  · exact ⟨'[', _, by rw [renderJ], by decide, by decide, by decide, by decide⟩
  · exact ⟨'{', _, by rw [renderJ], by decide, by decide, by decide, by decide⟩

theorem sizeJ_pos (j : Json) : 1 ≤ sizeJ j := by
  rcases j with _ | b | n | s | xs | ms <;> simp [sizeJ]

theorem sizeElems_pos (xs : List Json) : 1 ≤ sizeElems xs := by
  rcases xs with _ | ⟨x, xs⟩ <;> (simp [sizeElems]; try omega)

theorem sizeTail_pos (ys : List Json) : 1 ≤ sizeTail ys := by
  rcases ys with _ | ⟨y, ys⟩ <;> (simp [sizeTail]; try omega)

theorem sizeMems_pos (ms : List (String × Json)) : 1 ≤ sizeMems ms := by
  rcases ms with _ | ⟨⟨k, v⟩, ms⟩ <;> (simp [sizeMems]; try omega)

theorem sizeMemsTail_pos (ms : List (String × Json)) : 1 ≤ sizeMemsTail ms := by
  rcases ms with _ | ⟨⟨k, v⟩, ms⟩ <;> (simp [sizeMemsTail]; try omega)

/-! ## String body round trip -/

theorem parseStringAux_escape (s : List Char) :
    ∀ rest, parseStringAux (escapeList s ++ '"' :: rest) = some (s, rest) := by
  induction s with
  | nil =>
    intro rest
    rw [escapeList, List.nil_append, parseStringAux]
    simp
  | cons c cs ih =>
    intro rest
    rw [escapeList, List.append_assoc]
    by_cases h1 : c = '"'
    · subst h1
      rw [show escapeChar '"' = ['\\', '"'] from rfl]
      rw [List.cons_append, List.singleton_append, parseStringAux]
      simp [parseEscape, unescapeChar, ih]
    · by_cases h2 : c = '\\'
      · subst h2
        rw [show escapeChar '\\' = ['\\', '\\'] from rfl]
        rw [List.cons_append, List.singleton_append, parseStringAux]
        simp [parseEscape, unescapeChar, ih]
      · by_cases h3 : c = '\n'
        · subst h3
          rw [show escapeChar '\n' = ['\\', 'n'] from rfl]
          rw [List.cons_append, List.singleton_append, parseStringAux]
          simp [parseEscape, unescapeChar, ih]
        · by_cases h4 : c = '\t'
          · subst h4
            rw [show escapeChar '\t' = ['\\', 't'] from rfl]
            rw [List.cons_append, List.singleton_append, parseStringAux]
            simp [parseEscape, unescapeChar, ih]
          · by_cases h5 : c = '\r'
            · subst h5
              rw [show escapeChar '\r' = ['\\', 'r'] from rfl]
              rw [List.cons_append, List.singleton_append, parseStringAux]
              simp [parseEscape, unescapeChar, ih]
            · rw [show escapeChar c = [c] from by
                simp [escapeChar, h1, h2, h3, h4, h5]]
              rw [List.singleton_append, parseStringAux]
              simp [h1, h2, ih]

/-! ## Full round trip: parsing a rendering -/

/-- The input does not start with a digit (so greedy number parsing cannot
overrun into it). -/
def nonDigitStart (cs : List Char) : Prop :=
  ∀ c t, cs = c :: t → isDigitChar c = false

theorem nonDigitStart_nil : nonDigitStart [] := by
  intro c t h
  cases h

theorem nonDigitStart_cons {d : Char} (h : isDigitChar d = false)
    (t : List Char) : nonDigitStart (d :: t) := by
  intro c t' hh
  cases hh
  exact h

theorem nonDigitStart_renderTail (xs : List Json) (rest : List Char) :
    nonDigitStart (renderTail xs ++ ']' :: rest) := by
  rcases xs with _ | ⟨y, ys⟩
  · rw [renderTail, List.nil_append]
    exact nonDigitStart_cons (by decide) _
  · rw [renderTail, List.cons_append]
    exact nonDigitStart_cons (by decide) _

theorem nonDigitStart_renderMemsTail (ms : List (String × Json))
    (rest : List Char) :
    nonDigitStart (renderMemsTail ms ++ '}' :: rest) := by
  rcases ms with _ | ⟨m, ms⟩
  · rw [renderMemsTail, List.nil_append]
    exact nonDigitStart_cons (by decide) _
  · rw [renderMemsTail, List.cons_append]
    exact nonDigitStart_cons (by decide) _

/-- Parsing inverts rendering, for every parser of the mutual family, given
enough fuel. -/
theorem parse_render_aux : ∀ fuel : Nat,
    (∀ j rest, sizeJ j ≤ fuel → nonDigitStart rest →
      parseValue fuel (renderJ j ++ rest) = some (j, rest)) ∧
    (∀ xs rest, sizeElems xs ≤ fuel →
      parseElems fuel (renderElems xs ++ ']' :: rest) = some (xs, rest)) ∧
    (∀ xs rest, sizeTail xs ≤ fuel →
      parseElemsTail fuel (renderTail xs ++ ']' :: rest) = some (xs, rest)) ∧
    (∀ ms rest, sizeMems ms ≤ fuel →
      parseMems fuel (renderMems ms ++ '}' :: rest) = some (ms, rest)) ∧
    (∀ ms rest, sizeMemsTail ms ≤ fuel →
      parseMemsTail fuel (renderMemsTail ms ++ '}' :: rest) = some (ms, rest)) ∧
    (∀ k v rest, 1 + sizeJ v ≤ fuel → nonDigitStart rest →
      parseMember fuel (renderMem (k, v) ++ rest) = some ((k, v), rest)) := by
  intro fuel
  induction fuel with
  | zero =>
    refine ⟨fun j rest hs _ => absurd hs (by have := sizeJ_pos j; omega),
      fun xs rest hs => absurd hs (by have := sizeElems_pos xs; omega),
      fun xs rest hs => absurd hs (by have := sizeTail_pos xs; omega),
      fun ms rest hs => absurd hs (by have := sizeMems_pos ms; omega),
      fun ms rest hs => absurd hs (by have := sizeMemsTail_pos ms; omega),
      fun k v rest hs _ => absurd hs (by omega)⟩
  | succ fuel ih =>
    obtain ⟨ihV, ihE, ihT, ihM, ihMT, ihMem⟩ := ih
    refine ⟨?_, ?_, ?_, ?_, ?_, ?_⟩
    · -- parseValue inverts renderJ
      intro j rest hs hnd
      rcases j with _ | b | n | s | xs | ms
      · simp [renderJ, parseValue, dropLit_append]
      · rcases b with _ | _ <;> simp [renderJ, parseValue, dropLit_append]
      · -- numbers
        obtain ⟨c, t, hct, hc⟩ := renderNat_head n
        obtain ⟨h1, h2, h3, h4, h5, h6, _, _, _, _⟩ := digit_ne hc
        rw [renderJ, hct, List.cons_append, parseValue]
        rw [if_neg h1, if_neg h2, if_neg h3, if_neg h4, if_neg h5, if_neg h6,
          if_pos hc]
        rw [← List.cons_append, ← hct, parseDigitsAux_renderNat,
          Nat.zero_mul, Nat.zero_add, parseDigitsAux_stop rest n hnd]
      · -- strings
        rw [renderJ, List.cons_append, List.append_assoc,
          List.singleton_append, parseValue]
        rw [if_neg (by decide), if_neg (by decide), if_neg (by decide),
          if_pos rfl, parseStringAux_escape]
      · -- arrays
        have hxs : sizeElems xs ≤ fuel := by
          rw [sizeJ] at hs; omega
        rw [renderJ, List.cons_append, List.append_assoc,
          List.singleton_append, parseValue]
        rw [if_neg (by decide), if_neg (by decide), if_neg (by decide),
          if_neg (by decide), if_pos rfl, ihE xs rest hxs]
      · -- objects
        have hms : sizeMems ms ≤ fuel := by
          rw [sizeJ] at hs; omega
        rw [renderJ, List.cons_append, List.append_assoc,
          List.singleton_append, parseValue]
        rw [if_neg (by decide), if_neg (by decide), if_neg (by decide),
          if_neg (by decide), if_neg (by decide), if_pos rfl,
          ihM ms rest hms]
    · -- parseElems inverts renderElems
      intro xs rest hs
      rcases xs with _ | ⟨x, xs'⟩
      · rw [renderElems, List.nil_append, parseElems, if_pos rfl]
      · obtain ⟨c, t, hct, hc1, _, _, _⟩ := renderJ_head x
        have hsx : sizeJ x ≤ fuel := by
          rw [sizeElems] at hs
          have := sizeTail_pos xs'
          omega
        have hst : sizeTail xs' ≤ fuel := by
          rw [sizeElems] at hs
          have := sizeJ_pos x
          omega
        have hv := ihV x (renderTail xs' ++ ']' :: rest) hsx
          (nonDigitStart_renderTail xs' rest)
        have ht := ihT xs' rest hst
        rw [renderElems, List.append_assoc, hct, List.cons_append, parseElems,
          if_neg hc1, ← List.cons_append, ← hct, hv]
        simp only [ht]
    · -- parseElemsTail inverts renderTail
      intro xs rest hs
      rcases xs with _ | ⟨y, ys⟩
      · rw [renderTail, List.nil_append, parseElemsTail, if_pos rfl]
      · have hsy : sizeJ y ≤ fuel := by
          rw [sizeTail] at hs
          have := sizeTail_pos ys
          omega
        have hst : sizeTail ys ≤ fuel := by
          rw [sizeTail] at hs
          have := sizeJ_pos y
          omega
        have hv := ihV y (renderTail ys ++ ']' :: rest) hsy
          (nonDigitStart_renderTail ys rest)
        have ht := ihT ys rest hst
        rw [renderTail, List.cons_append, List.append_assoc, parseElemsTail,
          if_neg (by decide), if_pos rfl, hv]
        simp only [ht]
    · -- parseMems inverts renderMems
      intro ms rest hs
      rcases ms with _ | ⟨⟨k, v⟩, ms'⟩
      · rw [renderMems, List.nil_append, parseMems, if_pos rfl]
      · have hsv : 1 + sizeJ v ≤ fuel := by
          rw [sizeMems] at hs
          have := sizeMemsTail_pos ms'
          omega
        have hst : sizeMemsTail ms' ≤ fuel := by
          rw [sizeMems] at hs
          have := sizeJ_pos v
          omega
        have hm := ihMem k v (renderMemsTail ms' ++ '}' :: rest) hsv
          (nonDigitStart_renderMemsTail ms' rest)
        have ht := ihMT ms' rest hst
        rw [renderMems, List.append_assoc, renderMem, List.cons_append,
          parseMems, if_neg (by decide), ← List.cons_append, ← renderMem, hm]
        simp only [ht]
    · -- parseMemsTail inverts renderMemsTail
      intro ms rest hs
      rcases ms with _ | ⟨⟨k, v⟩, ms'⟩
      · rw [renderMemsTail, List.nil_append, parseMemsTail, if_pos rfl]
      · have hsv : 1 + sizeJ v ≤ fuel := by
          rw [sizeMemsTail] at hs
          have := sizeMemsTail_pos ms'
          omega
        have hst : sizeMemsTail ms' ≤ fuel := by
          rw [sizeMemsTail] at hs
          have := sizeJ_pos v
          omega
        have hm := ihMem k v (renderMemsTail ms' ++ '}' :: rest) hsv
          (nonDigitStart_renderMemsTail ms' rest)
        have ht := ihMT ms' rest hst
        rw [renderMemsTail, List.cons_append, List.append_assoc,
          parseMemsTail, if_neg (by decide), if_pos rfl, hm]
        simp only [ht]
    · -- parseMember inverts renderMem
      intro k v rest hf hnd
      have hsv : sizeJ v ≤ fuel := by omega
      have hv := ihV v rest hsv hnd
      rw [renderMem, List.cons_append, List.append_assoc, parseMember,
        if_pos rfl]
      rw [show ('"' :: ':' :: renderJ v) ++ rest =
        '"' :: (':' :: (renderJ v ++ rest)) from by simp]
      rw [parseStringAux_escape]
      simp only [dropLit, if_true, hv]

/-! ## Courses as JSON -/

/-- The JSON object `JSON.stringify` produces for one course. -/
def encodeCourse (c : Course) : Json :=
  .obj [("id", .num c.id), ("title", .str c.title), ("image", .str c.image)]

/-- The JSON array `JSON.stringify` receives for a course list. -/
def encodeCourses (l : List Course) : Json :=
  .arr (l.map encodeCourse)

/-- Model of `JSON.stringify(data)` for a course list, the exact string stored in
`localStorage` by `setData`. -/
def serializeCourses (l : List Course) : String :=
  String.mk (renderJ (encodeCourses l))

/-- Read one course back from a parsed JSON value (the source performs no
validation: parsed data is used as `Course[]` directly, so only the shape
`JSON.stringify` itself writes is ever read back). -/
def decodeCourse : Json → Option Course
  | .obj [("id", .num i), ("title", .str t), ("image", .str im)] =>
    some { id := i, title := t, image := im }
  | _ => none

/-- Read a course list back from a list of parsed JSON values. -/
def decodeList : List Json → Option (List Course)
  | [] => some []
  | j :: t =>
    match decodeCourse j, decodeList t with
    | some c, some cs => some (c :: cs)
    | _, _ => none

/-- Read a course list back from a parsed JSON value. -/
def decodeCourses : Json → Option (List Course)
  | .arr xs => decodeList xs
  | _ => none

/-- Model of `JSON.parse` applied to a stored string, read as a course list. -/
def parseCourses (data : String) : Option (List Course) :=
  (Json.parse data).bind decodeCourses

theorem renderMem_len (k : String) (v : Json) :
    3 ≤ (renderMem (k, v)).length := by
  rw [renderMem]
  simp
  omega

theorem len_encodeCourse (c : Course) :
    13 ≤ (renderJ (encodeCourse c)).length := by
  have h1 := renderMem_len "id" (.num c.id)
  have h2 := renderMem_len "title" (.str c.title)
  have h3 := renderMem_len "image" (.str c.image)
  rw [encodeCourse, renderJ, renderMems, renderMemsTail, renderMemsTail,
    renderMemsTail]
  simp only [List.length_cons, List.length_append, List.length_nil]
  omega

theorem sizeJ_encodeCourse (c : Course) : sizeJ (encodeCourse c) = 11 := by
  rw [encodeCourse, sizeJ, sizeMems, sizeMemsTail, sizeMemsTail, sizeMemsTail,
    sizeJ, sizeJ, sizeJ]

theorem sizeTail_map_encode (l : List Course) :
    sizeTail (l.map encodeCourse) ≤ (renderTail (l.map encodeCourse)).length + 1 := by
  induction l with
  | nil => rw [List.map_nil, sizeTail, renderTail]; simp
  | cons c r ih =>
    have hc := len_encodeCourse c
    rw [List.map_cons, sizeTail, renderTail, sizeJ_encodeCourse]
    simp only [List.length_cons, List.length_append]
    omega

theorem sizeElems_map_encode (l : List Course) :
    sizeElems (l.map encodeCourse) ≤
      (renderElems (l.map encodeCourse)).length + 1 := by
  rcases l with _ | ⟨c, r⟩
  · rw [List.map_nil, sizeElems, renderElems]; simp
  · have hc := len_encodeCourse c
    have ht := sizeTail_map_encode r
    rw [List.map_cons, sizeElems, renderElems, sizeJ_encodeCourse]
    simp only [List.length_append]
    omega

theorem sizeJ_encodeCourses (l : List Course) :
    sizeJ (encodeCourses l) ≤ (renderJ (encodeCourses l)).length := by
  have h := sizeElems_map_encode l
  rw [encodeCourses, sizeJ, renderJ]
  simp only [List.length_cons, List.length_append, List.length_nil]
  omega

/-- Parsing inverts `JSON.stringify` on course lists, at the JSON level. -/
theorem parse_serialize (l : List Course) :
    Json.parse (serializeCourses l) = some (encodeCourses l) := by
  have hsz : sizeJ (encodeCourses l) ≤
      (renderJ (encodeCourses l)).length + 1 := by
    have := sizeJ_encodeCourses l
    omega
  have hv := (parse_render_aux ((renderJ (encodeCourses l)).length + 1)).1
    (encodeCourses l) [] hsz nonDigitStart_nil
  rw [List.append_nil] at hv
  rw [Json.parse]
  rw [show (serializeCourses l).data = renderJ (encodeCourses l) from rfl]
  rw [hv]

theorem decodeCourse_encodeCourse (c : Course) :
    decodeCourse (encodeCourse c) = some c := rfl

theorem decodeList_map_encode (l : List Course) :
    decodeList (l.map encodeCourse) = some l := by
  induction l with
  | nil => rfl
  | cons c r ih =>
    rw [List.map_cons, decodeList, decodeCourse_encodeCourse, ih]

/-- The serialize-then-deserialize round trip on course lists. -/
theorem parseCourses_serializeCourses (l : List Course) :
    parseCourses (serializeCourses l) = some l := by
  rw [parseCourses, parse_serialize, Option.some_bind,
    encodeCourses, decodeCourses, decodeList_map_encode]

/-! ## The course service (`course.service.ts`, BehaviorSubject-based)

State and operations are embedded with explicit state passing.  An operation
returns its result, the successor state, and the list of side effects it
performed, in execution order. -/

/-- One side effect of a service operation. -/
inductive Event where
  | publish (snapshot : List Course)
  | persist (value : String)
deriving DecidableEq

/-- The mutable context of a `CourseService` instance: the BehaviorSubject's
current value (`courses$.value`) and the `localStorage` entry under
`Strings.STORAGE_KEY` (`none` when the key is absent). -/
structure ServiceState where
  coursesValue : List Course
  storage : Option String
deriving DecidableEq

/-- Model of `updateCourses(data)`: `this.courses$.next(data)` — the synchronous
publication of `data` to all subscribers. -/
def updateCourses (data : List Course) : Event :=
  .publish data

/-- Model of `setData(data)`:
`localStorage.setItem(Strings.STORAGE_KEY, JSON.stringify(data))`. -/
def setData (data : List Course) : Event :=
  .persist (serializeCourses data)

/-- Model of `addCourse(data)`: reads `courses$.value`, appends
`{ ...data, id: courses.length + 1 }`, calls `updateCourses(newCourses)` then
`setData(newCourses)`, and returns `newCourses`. -/
def addCourse (data : Course) (s : ServiceState) :
    List Course × ServiceState × List Event :=
  let courses := s.coursesValue
  let newCourses := courses ++ [{ data with id := courses.length + 1 }]
  (newCourses,
    { coursesValue := newCourses,
      storage := some (serializeCourses newCourses) },
    [updateCourses newCourses, setData newCourses])

/-- Model of `deleteCourse(course)`: filters out entries with `c.id !== course.id`,
calls `updateCourses(courses)` then `setData(courses)`. -/
def deleteCourse (course : Course) (s : ServiceState) :
    ServiceState × List Event :=
  let courses := s.coursesValue.filter (fun c => c.id != course.id)
  ({ coursesValue := courses,
     storage := some (serializeCourses courses) },
   [updateCourses courses, setData courses])

/-- How a call to `getCourses()` can fail. -/
inductive LoadError where
  | notJson
  | badShape
deriving DecidableEq

/-- Model of `getCourses()`: reads `localStorage.getItem(Strings.STORAGE_KEY)`; when
absent returns `[]` without touching the subject; when present runs
`JSON.parse(data)` (an invalid document throws, `.error .notJson`, and the
exception propagates out of `getCourses` — the source has no guard), then
`updateCourses(courses)` and returns the parsed list.  The source performs no
shape validation on the parsed value; parsed JSON that is not a course list is
`.error .badShape` here, a path no stored-by-this-app value ever takes. -/
def getCourses (s : ServiceState) :
    Except LoadError (List Course × ServiceState × List Event) :=
  match s.storage with
  | none => .ok ([], s, [])
  | some data =>
    match Json.parse data with
    | none => .error .notJson
    | some j =>
      match decodeCourses j with
      | none => .error .badShape
      | some courses =>
        .ok (courses, { s with coursesValue := courses },
          [updateCourses courses])

/-! ## Subscribers

`courses$.next` hands the published snapshot to every live subscriber
synchronously, in registration order; the subscriber list is modelled by
handles in registration order. -/

/-- Delivery of one published snapshot to all registered subscribers, in
registration order. -/
def notifySubscribers (subs : List Nat) (snapshot : List Course) :
    List (Nat × List Course) :=
  subs.map fun h => (h, snapshot)

/-- All deliveries a list of events causes, in order. -/
def deliveries (subs : List Nat) : List Event → List (Nat × List Course)
  | [] => []
  | .publish l :: es => notifySubscribers subs l ++ deliveries subs es
  | .persist _ :: es => deliveries subs es

/-! ## The signal-based service (`src/unnamed/part_003`) -/

/-- Model of `addCourse(data)` of the signal-based variant: `courses.update` computes
`[...courses, { ...data, id: courses.length + 1 }]`, calls
`setData(updateCourses)` inside the updater, the signal takes the new value,
and `this.courses()` (the new value) is returned.  Signals deliver no
synchronous subscriber notifications, so only the persistence effect is
recorded. -/
def addCourseSig (data : Course) (s : ServiceState) :
    List Course × ServiceState × List Event :=
  let courses := s.coursesValue
  let newCourse := { data with id := courses.length + 1 }
  let updateCourses := courses ++ [newCourse]
  (updateCourses,
    { coursesValue := updateCourses,
      storage := some (serializeCourses updateCourses) },
    [setData updateCourses])

/-- Model of `deleteCourse(course)` of the signal-based variant. -/
def deleteCourseSig (course : Course) (s : ServiceState) :
    ServiceState × List Event :=
  let updateCourses := s.coursesValue.filter (fun c => c.id != course.id)
  ({ coursesValue := updateCourses,
     storage := some (serializeCourses updateCourses) },
   [setData updateCourses])

/-! ## Operation sequences -/

/-- One mutating call to the service. -/
inductive Op where
  | add (data : Course)
  | del (course : Course)
deriving DecidableEq

/-- State after one call, BehaviorSubject-based service. -/
def stepBS (s : ServiceState) : Op → ServiceState
  | .add d => (addCourse d s).2.1
  | .del c => (deleteCourse c s).1

/-- State after a sequence of calls, BehaviorSubject-based service. -/
def runBS (s : ServiceState) (ops : List Op) : ServiceState :=
  ops.foldl stepBS s

/-- Return value of one call (`addCourse` returns the new list,
`deleteCourse` returns void), BehaviorSubject-based service. -/
def retBS (s : ServiceState) : Op → Option (List Course)
  | .add d => some (addCourse d s).1
  | .del _ => none

/-- Return values along a sequence of calls, BehaviorSubject-based service. -/
def tracesBS : ServiceState → List Op → List (Option (List Course))
  | _, [] => []
  | s, op :: ops => retBS s op :: tracesBS (stepBS s op) ops

/-- State after one call, signal-based service. -/
def stepSig (s : ServiceState) : Op → ServiceState
  | .add d => (addCourseSig d s).2.1
  | .del c => (deleteCourseSig c s).1

/-- State after a sequence of calls, signal-based service. -/
def runSig (s : ServiceState) (ops : List Op) : ServiceState :=
  ops.foldl stepSig s

/-- Return value of one call, signal-based service. -/
def retSig (s : ServiceState) : Op → Option (List Course)
  | .add d => some (addCourseSig d s).1
  | .del _ => none

/-- Return values along a sequence of calls, signal-based service. -/
def tracesSig : ServiceState → List Op → List (Option (List Course))
  | _, [] => []
  | s, op :: ops => retSig s op :: tracesSig (stepSig s op) ops

/-! ## The admin form controller (`admin.component.ts`) -/

/-- The component fields `onSubmit` touches: `cover` (the selected image as a
data URL, `""` when none — both the initial undefined and the cleared `''`
are falsy) and `showError`. -/
structure AdminState where
  cover : String
  showError : Bool
deriving DecidableEq

/-- The `NgForm` as `onSubmit` observes and mutates it: native validity,
whether `markAllAsTouched()` has run, and the form's course fields
(`form.value`). -/
structure FormState where
  invalid : Bool
  touchedAll : Bool
  title : String
deriving DecidableEq

/-- Everything `onSubmit` leaves behind. -/
structure SubmitResult where
  admin : AdminState
  form : FormState
  service : ServiceState
  addCourseCalled : Bool
deriving DecidableEq

/-- Model of `onSubmit(form)`: on `form.invalid || !this.cover`, marks all controls
touched, sets `showError` when the cover is missing, and returns without
calling the service; otherwise `saveCourse(form)` merges `form.value` with
`image: this.cover` (the payload carries no `id`; `0` stands for the absent
field, immediately overwritten by `addCourse`), calls
`courseService.addCourse`, and `clearForm(form)` resets the form and clears
the cover. -/
def onSubmit (form : FormState) (a : AdminState) (svc : ServiceState) :
    SubmitResult :=
  if form.invalid || a.cover == "" then
    { admin := { a with showError := if a.cover == "" then true else a.showError },
      form := { form with touchedAll := true },
      service := svc,
      addCourseCalled := false }
  else
    let data : Course := { id := 0, title := form.title, image := a.cover }
    { admin := { a with cover := "" },
      form := { form with touchedAll := false, title := "" },
      service := (addCourse data svc).2.1,
      addCourseCalled := true }

/-! ## Fixtures for concrete instances -/

/-- A course payload as the admin form submits it (no meaningful id). -/
def cA0 : Course := { id := 0, title := "A", image := "a" }

/-- A second course payload. -/
def cB0 : Course := { id := 0, title := "B", image := "b" }

/-- A third course payload. -/
def cC0 : Course := { id := 0, title := "C", image := "c" }

/-- The first course as stored (id 1). -/
def cA1 : Course := { id := 1, title := "A", image := "a" }

/-- The second course as stored (id 2). -/
def cB2 : Course := { id := 2, title := "B", image := "b" }

/-! ## C1: sequences of `addCourse` -/

/-- Every position of the list holds the course whose `id` is its 1-based
index. -/
def sequentialIds (l : List Course) : Prop :=
  ∀ i (h : i < l.length), (l.get ⟨i, h⟩).id = i + 1

theorem sequentialIds_append {l : List Course} (hl : sequentialIds l)
    (d : Course) :
    sequentialIds (l ++ [{ d with id := l.length + 1 }]) := by
  intro i hi
  rw [List.get_eq_getElem]
  by_cases hlt : i < l.length
  · rw [List.getElem_append_left hlt]
    have := hl i hlt
    rw [List.get_eq_getElem] at this
    exact this
  · have hlen : i = l.length := by
      rw [List.length_append, List.length_singleton] at hi
      omega
    rw [List.getElem_concat_length _ _ _ hlen]
    rw [hlen]

theorem runBS_adds_length (datas : List Course) :
    ∀ s : ServiceState,
      (runBS s (datas.map Op.add)).coursesValue.length =
        s.coursesValue.length + datas.length := by
  induction datas with
  | nil => intro s; rw [List.map_nil, runBS, List.foldl_nil]; rfl
  | cons d r ih =>
    intro s
    rw [List.map_cons, runBS, List.foldl_cons]
    have := ih (stepBS s (Op.add d))
    rw [runBS] at this
    rw [this]
    simp [stepBS, addCourse]
    omega

theorem runBS_adds_sequential (datas : List Course) :
    ∀ s : ServiceState, sequentialIds s.coursesValue →
      sequentialIds (runBS s (datas.map Op.add)).coursesValue := by
  induction datas with
  | nil => intro s hs; rw [List.map_nil, runBS, List.foldl_nil]; exact hs
  | cons d r ih =>
    intro s hs
    rw [List.map_cons, runBS, List.foldl_cons]
    have hstep : (stepBS s (Op.add d)).coursesValue =
        s.coursesValue ++ [{ d with id := s.coursesValue.length + 1 }] := rfl
    have := ih (stepBS s (Op.add d)) (by rw [hstep]; exact sequentialIds_append hs d)
    rw [runBS] at this
    exact this

/-- C1.  For every sequence of `addCourse` calls applied to a store whose
list starts empty, the final list length equals the number of calls, and the
course at 1-based position `i + 1` — the one appended by the `(i + 1)`-th
call, since `addCourse` only appends — carries `id = i + 1`. -/
theorem addCourse_sequence_ids (datas : List Course) (st : Option String) :
    (runBS ⟨[], st⟩ (datas.map Op.add)).coursesValue.length = datas.length ∧
    ∀ i (h : i < (runBS ⟨[], st⟩ (datas.map Op.add)).coursesValue.length),
      ((runBS ⟨[], st⟩ (datas.map Op.add)).coursesValue.get ⟨i, h⟩).id =
        i + 1 := by
  constructor
  · rw [runBS_adds_length]
    simp
  · exact runBS_adds_sequential datas ⟨[], st⟩ (fun i h => by cases h)

/-- Witness for C1 at a concrete two-call run. -/
theorem addCourse_sequence_ids_witness :
    (runBS ⟨[], none⟩ ([cA0, cB0].map Op.add)).coursesValue.length = 2 ∧
    ((runBS ⟨[], none⟩ ([cA0, cB0].map Op.add)).coursesValue.get
      ⟨1, by decide⟩).id = 2 :=
  ⟨(addCourse_sequence_ids [cA0, cB0] none).1,
    (addCourse_sequence_ids [cA0, cB0] none).2 1 (by decide)⟩

/-! ## C5: `deleteCourse` removes every matching entry -/

/-- C5.  After `deleteCourse(course)`, no entry of the snapshot carries
`course.id`: the filter removes every match, not only the first. -/
theorem deleteCourse_removes_all (course : Course) (s : ServiceState)
    (x : Course) (hx : x ∈ (deleteCourse course s).1.coursesValue) :
    x.id ≠ course.id := by
  have hx' : x ∈ s.coursesValue.filter (fun c => c.id != course.id) := hx
  have := (List.mem_filter.mp hx').2
  simpa using this

/-- Witness for C5: deleting id 1 from `[cA1, cB2]` keeps `cB2`, whose id
differs from the deleted one. -/
theorem deleteCourse_removes_all_witness :
    cB2 ∈ (deleteCourse cA1 ⟨[cA1, cB2], none⟩).1.coursesValue ∧
      cB2.id ≠ cA1.id :=
  ⟨by decide,
    deleteCourse_removes_all cA1 ⟨[cA1, cB2], none⟩ cB2 (by decide)⟩

/-! ## C6: duplicate ids after a delete -/

/-- C6.  `id = length + 1` reuses ids: add A, add B, delete A, add C leaves
two entries with id 2. -/
theorem duplicate_ids_after_delete :
    (addCourse cC0 (deleteCourse cA1
        (addCourse cB0 (addCourse cA0 ⟨[], none⟩).2.1).2.1).1).1 =
      [{ id := 2, title := "B", image := "b" },
       { id := 2, title := "C", image := "c" }] ∧
    ((addCourse cC0 (deleteCourse cA1
        (addCourse cB0 (addCourse cA0 ⟨[], none⟩).2.1).2.1).1).1.filter
      (fun x => x.id == 2)).length = 2 := by
  constructor
  · decide
  · decide

/-! ## C2: persistence matches memory, and loads back -/

theorem decodeCourses_encodeCourses (l : List Course) :
    decodeCourses (encodeCourses l) = some l := by
  rw [encodeCourses, decodeCourses, decodeList_map_encode]

/-- The persisted copy equals the in-memory list, deserializes back to it,
and a fresh store reading it reproduces it. -/
def persistedMatches (s : ServiceState) : Prop :=
  s.storage = some (serializeCourses s.coursesValue) ∧
  parseCourses (serializeCourses s.coursesValue) = some s.coursesValue ∧
  getCourses { coursesValue := [], storage := s.storage } =
    .ok (s.coursesValue,
      { coursesValue := s.coursesValue, storage := s.storage },
      [updateCourses s.coursesValue])

theorem persistedMatches_of_serialized (l : List Course) :
    persistedMatches { coursesValue := l, storage := some (serializeCourses l) } := by
  refine ⟨rfl, parseCourses_serializeCourses l, ?_⟩
  simp [getCourses, parse_serialize, decodeCourses_encodeCourses]

/-- C2.  After either mutating operation, the persisted string is exactly the
serialization of the new in-memory list, deserializing it returns that list,
and `getCourses` on a fresh store over the same storage reproduces it. -/
theorem mutation_persisted_roundtrip (s : ServiceState) (data course : Course) :
    persistedMatches (addCourse data s).2.1 ∧
      persistedMatches (deleteCourse course s).1 :=
  ⟨persistedMatches_of_serialized _, persistedMatches_of_serialized _⟩

/-! ## C3: effect order of a mutating operation -/

/-- Whether an event is the persistence write. -/
def Event.isPersist : Event → Bool
  | .persist _ => true
  | .publish _ => false

/-- Counterexample to C3 as stated: at a concrete `addCourse` call the first
side effect is the publication (`updateCourses` → `courses$.next`) and the
persistence write (`setData`) comes second, not first. -/
theorem addCourse_publishes_before_persisting :
    ((addCourse cA0 ⟨[], none⟩).2.2).map Event.isPersist = [false, true] :=
  rfl

/-- C3 (amended).  Every mutating operation performs exactly one synchronous
publication and exactly one synchronous persistence write before returning,
in that order: publication first, persistence second. -/
theorem mutation_effects_in_order (s : ServiceState) (data course : Course) :
    (addCourse data s).2.2 =
      [updateCourses (addCourse data s).2.1.coursesValue,
       setData (addCourse data s).2.1.coursesValue] ∧
    (deleteCourse course s).2 =
      [updateCourses (deleteCourse course s).1.coursesValue,
       setData (deleteCourse course s).1.coursesValue] :=
  ⟨rfl, rfl⟩

/-! ## C4: corrupt persisted state -/

/-- Counterexample to C4 as stated: with `"not json"` persisted, `getCourses`
does not fall back to the empty list — the `JSON.parse` failure propagates
(the source has no guard around it). -/
theorem getCourses_not_json_errors :
    getCourses { coursesValue := [], storage := some "not json" } =
        .error .notJson ∧
      Json.parse "not json" = none :=
  ⟨rfl, rfl⟩

/-- C4 (amended).  When the persisted value is not valid JSON, `getCourses`
fails with the parse error instead of returning: no fallback to the empty
list happens and the in-memory list is not updated. -/
theorem getCourses_corrupt_propagates (s : ServiceState) (data : String)
    (hs : s.storage = some data) (hp : Json.parse data = none) :
    getCourses s = .error .notJson := by
  rcases s with ⟨mem, st⟩
  simp only at hs
  subst hs
  simp [getCourses, hp]

/-- Witness for the amended C4 at the concrete corrupt string. -/
theorem getCourses_corrupt_propagates_witness :
    Json.parse "not json" = none ∧
      getCourses { coursesValue := [], storage := some "not json" } =
        .error .notJson :=
  ⟨rfl, getCourses_corrupt_propagates
    { coursesValue := [], storage := some "not json" } "not json" rfl rfl⟩

/-! ## C7: subscriber notifications -/

theorem deliveries_mutation (subs : List Nat) (l : List Course) :
    deliveries subs [updateCourses l, setData l] = notifySubscribers subs l := by
  simp [deliveries, updateCourses, setData]

/-- C7.  Each subscriber registered before a mutation is notified exactly
once per mutation, with the final post-mutation snapshot, and the deliveries
happen in registration order (their handle sequence is exactly the
registration sequence). -/
theorem subscribers_notified_once_in_order (subs : List Nat)
    (hnd : subs.Nodup) (s : ServiceState) (data course : Course) :
    (deliveries subs (addCourse data s).2.2 =
        subs.map (fun h => (h, (addCourse data s).2.1.coursesValue)) ∧
      (∀ p ∈ deliveries subs (addCourse data s).2.2,
        p.2 = (addCourse data s).2.1.coursesValue) ∧
      (deliveries subs (addCourse data s).2.2).map Prod.fst = subs ∧
      ∀ h ∈ subs,
        ((deliveries subs (addCourse data s).2.2).map Prod.fst).count h = 1) ∧
    (deliveries subs (deleteCourse course s).2 =
        subs.map (fun h => (h, (deleteCourse course s).1.coursesValue)) ∧
      (∀ p ∈ deliveries subs (deleteCourse course s).2,
        p.2 = (deleteCourse course s).1.coursesValue) ∧
      (deliveries subs (deleteCourse course s).2).map Prod.fst = subs ∧
      ∀ h ∈ subs,
        ((deliveries subs (deleteCourse course s).2).map Prod.fst).count h = 1) := by
  have hadd : deliveries subs (addCourse data s).2.2 =
      subs.map (fun h => (h, (addCourse data s).2.1.coursesValue)) :=
    deliveries_mutation subs _
  have hdel : deliveries subs (deleteCourse course s).2 =
      subs.map (fun h => (h, (deleteCourse course s).1.coursesValue)) :=
    deliveries_mutation subs _
  have haddf : (deliveries subs (addCourse data s).2.2).map Prod.fst =
      subs := by
    rw [hadd, List.map_map]
    exact List.map_id subs
  have hdelf : (deliveries subs (deleteCourse course s).2).map Prod.fst =
      subs := by
    rw [hdel, List.map_map]
    exact List.map_id subs
  refine ⟨⟨hadd, ?_, haddf, ?_⟩, ⟨hdel, ?_, hdelf, ?_⟩⟩
  · rw [hadd]
    intro p hp
    obtain ⟨h, _, rfl⟩ := List.mem_map.mp hp
    rfl
  · intro h hh
    rw [haddf]
    exact List.count_eq_one_of_mem hnd hh
  · rw [hdel]
    intro p hp
    obtain ⟨h, _, rfl⟩ := List.mem_map.mp hp
    rfl
  · intro h hh
    rw [hdelf]
    exact List.count_eq_one_of_mem hnd hh

/-- Witness for C7 with two registered subscribers. -/
theorem subscribers_notified_once_in_order_witness :
    ([7, 9] : List Nat).Nodup ∧
      (deliveries [7, 9] (addCourse cA0 ⟨[], none⟩).2.2).map Prod.fst =
        [7, 9] :=
  ⟨by decide,
    (subscribers_notified_once_in_order [7, 9] (by decide) ⟨[], none⟩
      cA0 cA0).1.2.2.1⟩

/-! ## C8: form submission without a cover image -/

/-- C8.  Submitting a valid form with no selected cover image sets the error
flag, marks all fields touched, never calls `addCourse`, and leaves the
store (list and persisted state) unchanged. -/
theorem submit_without_cover_rejected (form : FormState) (a : AdminState)
    (svc : ServiceState) (hvalid : form.invalid = false)
    (hcover : a.cover = "") :
    (onSubmit form a svc).service = svc ∧
      (onSubmit form a svc).addCourseCalled = false ∧
      (onSubmit form a svc).admin.showError = true ∧
      (onSubmit form a svc).form.touchedAll = true := by
  simp [onSubmit, hvalid, hcover]

/-- Witness for C8 at a concrete valid-but-coverless submission. -/
theorem submit_without_cover_rejected_witness :
    ({ invalid := false, touchedAll := false, title := "T" } : FormState).invalid = false ∧
      ({ cover := "", showError := false } : AdminState).cover = "" ∧
      ((onSubmit { invalid := false, touchedAll := false, title := "T" }
          { cover := "", showError := false } ⟨[], none⟩).service = ⟨[], none⟩ ∧
        (onSubmit { invalid := false, touchedAll := false, title := "T" }
          { cover := "", showError := false } ⟨[], none⟩).addCourseCalled = false ∧
        (onSubmit { invalid := false, touchedAll := false, title := "T" }
          { cover := "", showError := false } ⟨[], none⟩).admin.showError = true ∧
        (onSubmit { invalid := false, touchedAll := false, title := "T" }
          { cover := "", showError := false } ⟨[], none⟩).form.touchedAll = true) :=
  ⟨rfl, rfl,
    submit_without_cover_rejected _ _ _ rfl rfl⟩

/-! ## C9: deleting a missing id still persists and publishes -/

/-- C9.  `deleteCourse` with an id matching no entry leaves the list equal to
its previous value, yet still performs the persistence write and still
publishes a notification: the no-op mutation is observable. -/
theorem delete_missing_id_still_publishes (course : Course) (s : ServiceState)
    (h : ∀ c ∈ s.coursesValue, c.id ≠ course.id) :
    (deleteCourse course s).1.coursesValue = s.coursesValue ∧
      (deleteCourse course s).2 =
        [updateCourses s.coursesValue, setData s.coursesValue] ∧
      (deleteCourse course s).1.storage =
        some (serializeCourses s.coursesValue) := by
  have hf : s.coursesValue.filter (fun c => c.id != course.id) =
      s.coursesValue := by
    apply List.filter_eq_self.mpr
    intro a ha
    simpa using h a ha
  refine ⟨?_, ?_, ?_⟩
  · show s.coursesValue.filter (fun c => c.id != course.id) = s.coursesValue
    exact hf
  · show [updateCourses (s.coursesValue.filter (fun c => c.id != course.id)),
      setData (s.coursesValue.filter (fun c => c.id != course.id))] = _
    rw [hf]
  · show some (serializeCourses
      (s.coursesValue.filter (fun c => c.id != course.id))) = _
    rw [hf]

/-- Witness for C9: deleting id 9 from a store holding only id 1. -/
theorem delete_missing_id_still_publishes_witness :
    (∀ c ∈ ([cA1] : List Course), c.id ≠ 9) ∧
      ((deleteCourse { id := 9, title := "X", image := "x" }
          ⟨[cA1], none⟩).1.coursesValue = [cA1] ∧
        (deleteCourse { id := 9, title := "X", image := "x" }
          ⟨[cA1], none⟩).2 = [updateCourses [cA1], setData [cA1]] ∧
        (deleteCourse { id := 9, title := "X", image := "x" }
          ⟨[cA1], none⟩).1.storage = some (serializeCourses [cA1])) :=
  ⟨by decide,
    delete_missing_id_still_publishes { id := 9, title := "X", image := "x" }
      ⟨[cA1], none⟩ (by decide)⟩

/-! ## C10: the two service implementations agree -/

theorem stepBS_eq_stepSig (s : ServiceState) (op : Op) :
    stepBS s op = stepSig s op := by
  rcases op with d | c
  · rfl
  · rfl

theorem retBS_eq_retSig (s : ServiceState) (op : Op) :
    retBS s op = retSig s op := by
  rcases op with d | c
  · rfl
  · rfl

/-- C10.  From any common initial state, the BehaviorSubject-based and the
signal-based services produce the same state after every sequence of
mutating calls (same course list and same persisted value) and the same
`addCourse` return values along the way. -/
theorem implementations_equivalent (ops : List Op) :
    ∀ s : ServiceState,
      runBS s ops = runSig s ops ∧ tracesBS s ops = tracesSig s ops := by
  induction ops with
  | nil => exact fun s => ⟨rfl, rfl⟩
  | cons op ops ih =>
    intro s
    constructor
    · rw [runBS, runSig, List.foldl_cons, List.foldl_cons,
        stepBS_eq_stepSig]
      exact (ih (stepSig s op)).1
    · rw [tracesBS, tracesSig, retBS_eq_retSig, stepBS_eq_stepSig]
      rw [(ih (stepSig s op)).2]
